import Mathlib

set_option maxHeartbeats 1000000
set_option linter.unusedVariables false

/- Shallow embedding of the override-registration and field-introspection
helpers of `src/drf_yasg/utils.py`.  Python values are modelled by the
inductive type `PyVal`; Python dicts are insertion-ordered association
lists, matching Python 3.7+ dict semantics; Python strings are compared
and sliced by code points via `String.data`.  Each failed Python `assert`
is modelled as an explicit error result carrying its message. -/

/-- Python values as needed by `drf_yasg.utils`: `None`, booleans,
integers, strings, lists, tuples, dicts (insertion-ordered association
lists) and opaque objects distinguished by a tag. -/
inductive PyVal : Type where
  | none : PyVal
  | bool (b : Bool) : PyVal
  | int (n : Int) : PyVal
  | str (s : String) : PyVal
  | list (xs : List PyVal) : PyVal
  | tuple (xs : List PyVal) : PyVal
  | dict (xs : List (PyVal × PyVal)) : PyVal
  | obj (tag : Nat) : PyVal

/-- Identity comparison with the Python `None` singleton. -/
def isNone : PyVal → Bool
  | PyVal.none => true
  | _ => false

/-- Embedding of `filter_none` (utils.py lines 253-268): remove `None`
values from tuples, lists or dictionaries (and pairs with `None` keys from
dictionaries); return other objects as-is.  When nothing was removed the
original object is returned (the `len(new_obj) != len(obj)` test). -/
def filter_none : PyVal → PyVal
  | PyVal.none => PyVal.none
  | PyVal.dict xs =>
    let new_obj := xs.filter fun kv => !(isNone kv.1) && !(isNone kv.2)
    if new_obj.length ≠ xs.length then PyVal.dict new_obj else PyVal.dict xs
  | PyVal.list xs =>
    let new_obj := xs.filter fun v => !(isNone v)
    if new_obj.length ≠ xs.length then PyVal.list new_obj else PyVal.list xs
  | PyVal.tuple xs =>
    let new_obj := xs.filter fun v => !(isNone v)
    if new_obj.length ≠ xs.length then PyVal.tuple new_obj else PyVal.tuple xs
  | v => v

/-- True when a mapping has no `None` key and no `None` value, and a
sequence has no `None` element; vacuously true on non-collections. -/
def noNoneEntries : PyVal → Bool
  | PyVal.dict xs => xs.all fun kv => !(isNone kv.1) && !(isNone kv.2)
  | PyVal.list xs => xs.all fun v => !(isNone v)
  | PyVal.tuple xs => xs.all fun v => !(isNone v)
  | _ => true

/-- Python `len` on the collection shapes `filter_none` handles. -/
def pyLen : PyVal → Option Nat
  | PyVal.dict xs => some xs.length
  | PyVal.list xs => some xs.length
  | PyVal.tuple xs => some xs.length
  | _ => Option.none

/-- Python dict item assignment `d[k] = v` on an insertion-ordered
association list: overwrite the value in place when the key is present
(keeping its original position), otherwise append the new pair. -/
def odictSet {α β : Type} [DecidableEq α] (d : List (α × β)) (k : α) (v : β) :
    List (α × β) :=
  if d.any fun kv => kv.1 == k then
    d.map fun kv => if kv.1 == k then (k, v) else kv
  else d ++ [(k, v)]

/-- Python `d.update(pairs)` / dict construction from an iterable of
pairs: item assignment for each pair in order. -/
def odictUpdate {α β : Type} [DecidableEq α] (d : List (α × β))
    (pairs : List (α × β)) : List (α × β) :=
  pairs.foldl (fun acc kv => odictSet acc kv.1 kv.2) d

/-- Python `OrderedDict(pairs)`. -/
def odictOfList {α β : Type} [DecidableEq α] (pairs : List (α × β)) :
    List (α × β) :=
  odictUpdate [] pairs

/-- A swagger `Parameter` as consumed by `param_list_to_odict`: the
function reads only the `name` and `in_` fields; `payload` stands for all
remaining data of the object, stored but never inspected. -/
structure Parameter : Type where
  name : String
  in_ : String
  payload : Nat
deriving DecidableEq

/-- The `(param.name, param.in_)` key tuple. -/
def paramKey (param : Parameter) : String × String := (param.name, param.in_)

/-- Embedding of `param_list_to_odict` (utils.py lines 238-250): build an
`OrderedDict` keyed on `(name, in_)` and assert that no parameter was
lost to a duplicate key (`len(result) == len(parameters)`). -/
def param_list_to_odict (parameters : List Parameter) :
    Except String (List ((String × String) × Parameter)) :=
  let result := odictOfList (parameters.map fun param => (paramKey param, param))
  if result.length = parameters.length then Except.ok result
  else Except.error "duplicate Parameters found"

/-- A serializer as consumed by `get_serializer_ref_name`:
`metaRefName = some v` models a `Meta` having a `ref_name` attribute with
value `v` (where `v = Option.none` is the Python value `None`);
`metaRefName = Option.none` models `hasattr(serializer_meta, 'ref_name')`
being false (no `Meta`, or a `Meta` without `ref_name`).  `className` is
`type(serializer).__name__`. -/
structure Serializer : Type where
  metaRefName : Option (Option String)
  className : String
  isModelSerializer : Bool

/-- Python `s.endswith(t)`: `t` is a suffix of `s` (by code points). -/
def strEndsWith (s t : String) : Bool := decide (t.data <:+ s.data)

/-- Python `s[:-n]` for `0 < n ≤ len(s)`: drop the last `n` code points. -/
def strDropRight (s : String) (n : Nat) : String :=
  String.mk (s.data.take (s.data.length - n))

/-- Embedding of `get_serializer_ref_name` (utils.py lines 347-366):
an explicit `Meta.ref_name` wins; else a `ModelSerializer` named exactly
`NestedSerializer` is forced inline (`None`); else the class name with a
trailing `Serializer` suffix stripped. -/
def get_serializer_ref_name (serializer : Serializer) : Option String :=
  match serializer.metaRefName with
  | some v => v
  | Option.none =>
    if serializer.className = "NestedSerializer" && serializer.isModelSerializer then
      Option.none
    else
      let ref_name := serializer.className
      some (if strEndsWith ref_name "Serializer" then
              strDropRight ref_name ("Serializer".length)
            else ref_name)

/-- A parser class as consumed by `get_consumes`: only its `media_type`
attribute is read. -/
structure ParserClass : Type where
  media_type : String

/-- Model of the external collaborator `rest_framework.request.is_form_media_type`
for parameter-free media types: the base media type is
`application/x-www-form-urlencoded` or `multipart/form-data`. -/
def is_form_media_type (media_type : String) : Bool :=
  media_type == "application/x-www-form-urlencoded" ||
    media_type == "multipart/form-data"

/-- Embedding of `get_consumes` (utils.py lines 308-320): collect the
parser media types; if all are form media types return them unchanged,
otherwise keep only the non-form media types.  The argument is optional,
matching `parser_classes or []`. -/
def get_consumes (parser_classes : Option (List ParserClass)) : List String :=
  let media_types := (parser_classes.getD []).map fun parser => parser.media_type
  if media_types.all fun encoding => is_form_media_type encoding then media_types
  else media_types.filter fun encoding => !(is_form_media_type encoding)

/-- A view as consumed by `is_list_view`: `action` is
`getattr(view, 'action', '')`; `attrDetail` maps an attribute name to the
`detail` attribute of that attribute (so `attrDetail.lookup a = some d`
models the view having attribute `a` whose `detail` is `d`, and a lookup
miss models `getattr(view, a, None)` returning `None`); `suffix` is the
optional view suffix; the three mixin flags model the
`isinstance(view, (RetrieveModelMixin, UpdateModelMixin, DestroyModelMixin))`
test. -/
structure View : Type where
  action : String
  attrDetail : List (String × Option Bool)
  suffix : Option String
  retrieveMixin : Bool
  updateMixin : Bool
  destroyMixin : Bool

/-- The character `{` (written by code to keep it out of string literals). -/
def lbrace : Char := Char.ofNat 123

/-- Python `path.strip('/')`: remove leading and trailing `/` characters. -/
def stripSlashes (s : String) : String :=
  String.mk (((s.data.dropWhile fun c => c == '/').reverse.dropWhile
    fun c => c == '/').reverse)

/-- Embedding of `is_list_view` (utils.py lines 196-226).  Note that the
source immediately rebinds its `method` parameter with
`method = getattr(view, action, None)`, so the HTTP method argument is
dead on entry; the embedding mirrors the shadowing with a `let`. -/
def is_list_view (path : String) (method : String) (view : View) : Bool :=
  let action := view.action
  let method := view.attrDetail.lookup action
  let detail : Option Bool := method.getD Option.none
  let suffix := view.suffix
  if action == "list" || action == "create" || detail == some false ||
      suffix == some "List" then
    true
  else if action == "retrieve" || action == "update" ||
      action == "partial_update" || action == "destroy" ||
      detail == some true || suffix == some "Instance" then
    false
  else if view.retrieveMixin || view.updateMixin || view.destroyMixin then
    false
  else
    let path_components := (stripSlashes path).splitOn "/"
    if !path_components.isEmpty &&
        (path_components.getLast?.getD "").data.contains lbrace then
      false
    else true

/-- The DRF class attribute `APIView.http_method_names`. -/
def APIView_http_method_names : List String :=
  ["get", "post", "put", "patch", "delete", "head", "options", "trace"]

/-- The `methods` argument of the decorator: Python `None`, a string
(the documented foot-gun), or a list of method names. -/
inductive MethodsArg : Type where
  | pynone : MethodsArg
  | str (s : String) : MethodsArg
  | list (l : List String) : MethodsArg

/-- Python truthiness of a `methods` value. -/
def MethodsArg.truthy : MethodsArg → Bool
  | MethodsArg.pynone => false
  | MethodsArg.str s => !s.isEmpty
  | MethodsArg.list l => !l.isEmpty

/-- The underlying list of a normalized `methods` value. -/
def MethodsArg.toList : MethodsArg → List String
  | MethodsArg.list l => l
  | _ => []

/-- Python `s.lower()` modelled per code point (method names are ASCII). -/
def pyLower (s : String) : String := String.mk (s.data.map Char.toLower)

/-- Python truthiness of the optional `method` string argument. -/
def methodTruthy : Option String → Bool
  | Option.none => false
  | some s => !s.isEmpty

/-- The keyword arguments of `swagger_auto_schema` (utils.py lines 27-30).
`auto_schema = Option.none` models the `unset` sentinel default; the
`PyVal`-typed fields default to the Python value `None` at call sites
that omit them.  `operation_summary` and `deprecated` are accepted by the
source but never stored in the override dict, and the same holds here. -/
structure SASArgs : Type where
  method : Option String
  methods : MethodsArg
  auto_schema : Option PyVal
  request_body : PyVal
  query_serializer : PyVal
  manual_parameters : PyVal
  operation_id : PyVal
  operation_description : PyVal
  operation_summary : PyVal
  security : PyVal
  deprecated : PyVal
  responses : PyVal
  field_inspectors : Option (List PyVal)
  filter_inspectors : Option (List PyVal)
  paginator_inspectors : Option (List PyVal)
  extra_overrides : List (String × PyVal)

/-- An override dict: string keys (Python identifiers or lower-cased
method names) to Python values. -/
abbrev Data := List (String × PyVal)

/-- Python `list(x) if x else None` for the three inspector arguments. -/
def listArgValue : Option (List PyVal) → PyVal
  | some l => if l.isEmpty then PyVal.none else PyVal.list l
  | Option.none => PyVal.none

/-- The literal `data` dict built on utils.py lines 103-114. -/
def mkData (a : SASArgs) : Data :=
  [("request_body", a.request_body),
   ("query_serializer", a.query_serializer),
   ("manual_parameters", a.manual_parameters),
   ("operation_id", a.operation_id),
   ("operation_description", a.operation_description),
   ("security", a.security),
   ("responses", a.responses),
   ("filter_inspectors", listArgValue a.filter_inspectors),
   ("paginator_inspectors", listArgValue a.paginator_inspectors),
   ("field_inspectors", listArgValue a.field_inspectors)]

/-- `filter_none` specialized to a string-keyed dict: the keys of `data`
are Python identifier strings, never `None`, so only `None` values are
dropped.  `filter_none_strdict_models` below ties this to `filter_none`. -/
def filter_none_strdict (d : Data) : Data :=
  let new_obj := d.filter fun kv => !(isNone kv.2)
  if new_obj.length ≠ d.length then new_obj else d

/-- Lines 103-118 of the decorator body: build `data`, drop `None`
values, add `auto_schema` when it is not `unset`, merge the extra
overrides. -/
def mergedData (a : SASArgs) : Data :=
  let data := filter_none_strdict (mkData a)
  let data2 := match a.auto_schema with
    | some v => odictSet data "auto_schema" v
    | Option.none => data
  odictUpdate data2 a.extra_overrides

/-- A view class (the `cls` attribute an `@api_view` function carries):
its `http_method_names` attribute, the names of the attributes it
exposes (for `hasattr(view_cls, m)`), and the names `m` of attributes for
which `getattr(view_cls, m)` itself carries `_swagger_auto_schema`. -/
structure ViewCls : Type where
  http_method_names : List String
  attrs : List String
  schemaAttrs : List String

/-- A view method (handler) as mutated by the decorator: its `__name__`,
the action attributes `bind_to_methods` and `mapping` (defaulting to `[]`
and `{}` when absent), the optional `cls` attribute, and the
`_swagger_auto_schema` attribute (`Option.none` when absent). -/
structure Handler : Type where
  name : String
  bind_to_methods : List String
  mapping : List (String × String)
  cls : Option ViewCls
  swagger_auto_schema : Option Data

/-- Lines 123-127: `bind_to_methods + [mth for mth, name in mapping.items()
if name == view_method.__name__]`. -/
def actionHttpMethods (view_method : Handler) : List String :=
  view_method.bind_to_methods ++
    ((view_method.mapping.filter fun p => p.2 == view_method.name).map Prod.fst)

/-- Lines 130-131: `[m for m in getattr(view_cls, 'http_method_names', [])
if hasattr(view_cls, m)]`. -/
def apiViewHttpMethods (view_cls : Option ViewCls) : List String :=
  match view_cls with
  | some c => c.http_method_names.filter fun m => c.attrs.contains m
  | Option.none => []

/-- Line 133: `api_view_http_methods + action_http_methods`. -/
def availableHttpMethods (view_method : Handler) : List String :=
  apiViewHttpMethods view_method.cls ++ actionHttpMethods view_method

/-- Line 161: `hasattr(getattr(view_cls, mth, None), '_swagger_auto_schema')`. -/
def clsAttrHasSchema (view_cls : Option ViewCls) (mth : String) : Bool :=
  match view_cls with
  | some c => c.schemaAttrs.contains mth
  | Option.none => false

/-- The stored value of a per-method entry: the override dict as a Python
object (a dict with string keys). -/
def dataToPy (d : Data) : PyVal :=
  PyVal.dict (d.map fun kv => (PyVal.str kv.1, kv.2))

/-- The outcome of applying the decorator to a view method.  `err` is a
raised `AssertionError` with its message and the handler state at the
raise point; `retNone` is the bare `return` on line 121 (the decorator
returns `None`); `ok` is `return view_method` with the mutated handler. -/
inductive RegResult : Type where
  | err (msg : String) (state : Handler) : RegResult
  | retNone (state : Handler) : RegResult
  | ok (state : Handler) : RegResult

/-- Lines 136-147: validation and normalization of the `method` and
`methods` selectors against the available methods and the existing
records; yields the `_methods` value in effect after the block. -/
def resolveSelector (a : SASArgs) (available_http_methods : List String)
    (existing_data : Data) : Except String MethodsArg :=
  if a.methods.truthy || methodTruthy a.method then
    if available_http_methods.isEmpty then
      Except.error "`method` or `methods` can only be specified on @action or @api_view views"
    else if a.methods.truthy == methodTruthy a.method then
      Except.error "specify either method or methods"
    else if (match a.methods with | MethodsArg.str _ => true | _ => false) then
      Except.error "`methods` expects to receive a list of methods; use `method` for a single argument"
    else
      let ms := if methodTruthy a.method then [pyLower (a.method.getD "")]
                else a.methods.toList.map pyLower
      if !(ms.all fun mth => available_http_methods.contains mth) then
        Except.error "http method not bound to view"
      else if ms.any fun mth => existing_data.any fun kv => kv.1 == mth then
        Except.error "http method defined multiple times"
      else Except.ok (MethodsArg.list ms)
  else Except.ok a.methods

/-- Lines 153-159: on a multi-method view a selector is mandatory; on a
single-method view the one available method is the implicit target. -/
def defaultSingleMethod (ms1 : MethodsArg) (available_http_methods : List String) :
    Except String MethodsArg :=
  if 1 < available_http_methods.length then
    if !ms1.truthy then
      Except.error "on multi-method api_view, action, detail_route or list_route, you must specify swagger_auto_schema on a per-method basis using one of the `method` or `methods` arguments"
    else Except.ok ms1
  else Except.ok (if ms1.truthy then ms1 else MethodsArg.list available_http_methods)

/-- Embedding of the decorator body of `swagger_auto_schema`
(utils.py lines 101-174) applied to `view_method`. -/
def swagger_auto_schema (a : SASArgs) (view_method : Handler) : RegResult :=
  if APIView_http_method_names.any fun hm => a.extra_overrides.any fun kv => kv.1 == hm then
    RegResult.err "HTTP method names not allowed here" view_method
  else
    let data := mergedData a
    if data.isEmpty then RegResult.retNone view_method
    else
      let action_http_methods := actionHttpMethods view_method
      let view_cls := view_method.cls
      let api_view_http_methods := apiViewHttpMethods view_cls
      let available_http_methods := api_view_http_methods ++ action_http_methods
      let existing_data := view_method.swagger_auto_schema.getD []
      match resolveSelector a available_http_methods existing_data with
      | Except.error e => RegResult.err e view_method
      | Except.ok ms1 =>
        if !available_http_methods.isEmpty then
          if (!api_view_http_methods.isEmpty) == (!action_http_methods.isEmpty) then
            RegResult.err "this should never happen" view_method
          else
            match defaultSingleMethod ms1 available_http_methods with
            | Except.error e => RegResult.err e view_method
            | Except.ok ms2 =>
              if ms2.toList.any fun mth => clsAttrHasSchema view_cls mth then
                RegResult.err "swagger_auto_schema applied twice to method" view_method
              else if ms2.toList.any fun mth => existing_data.any fun kv => kv.1 == mth then
                RegResult.err "swagger_auto_schema applied twice to method" view_method
              else
                let existing2 := odictUpdate existing_data
                  (ms2.toList.map fun mth => (pyLower mth, dataToPy data))
                RegResult.ok { view_method with swagger_auto_schema := some existing2 }
        else
          if ms1.truthy then
            RegResult.err "the methods argument should only be specified when decorating an action, detail_route or list_route; you should also ensure that you put the swagger_auto_schema decorator AFTER (above) the _route decorator" view_method
          else if !existing_data.isEmpty then
            RegResult.err "swagger_auto_schema applied twice to method" view_method
          else RegResult.ok { view_method with swagger_auto_schema := some data }

/-- The target methods supplied through the `method` or `methods`
selector arguments (empty when both are falsy, i.e. not supplied). -/
def suppliedTargets (a : SASArgs) : List String :=
  (if methodTruthy a.method then [a.method.getD ""] else []) ++
  (if a.methods.truthy then
    (match a.methods with
     | MethodsArg.list l => l
     | MethodsArg.str s => [s]
     | MethodsArg.pynone => [])
   else [])

/-- The per-method targets a registration call resolves to on a handler:
the lower-cased selector methods when a selector is supplied, else the
available method set (empty for a plain handler, i.e. a whole-handler
target). -/
def resolvedTargets (a : SASArgs) (h : Handler) : List String :=
  if a.methods.truthy || methodTruthy a.method then
    (suppliedTargets a).map pyLower
  else availableHttpMethods h

/-- A keyword-argument record with every decorator argument left at its
default (`method=None, methods=None, auto_schema=unset`, every override
field `None`, no extra overrides). -/
def baseArgs : SASArgs where
  method := Option.none
  methods := MethodsArg.pynone
  auto_schema := Option.none
  request_body := PyVal.none
  query_serializer := PyVal.none
  manual_parameters := PyVal.none
  operation_id := PyVal.none
  operation_description := PyVal.none
  operation_summary := PyVal.none
  security := PyVal.none
  deprecated := PyVal.none
  responses := PyVal.none
  field_inspectors := Option.none
  filter_inspectors := Option.none
  paginator_inspectors := Option.none
  extra_overrides := []

/-- A plain function-based view method: no action attributes, no `cls`,
no stored override record. -/
def plainHandler : Handler := ⟨"handler", [], [], Option.none, Option.none⟩

/-- A handler bound to `get` through `bind_to_methods` that already
carries a plain whole-handler override record, as arises when a first
`swagger_auto_schema` call ran before the route decorator marked the
function. -/
def c1Handler : Handler :=
  ⟨"my_action", ["get"], [], Option.none, some [("operation_id", PyVal.str "first")]⟩

/-- A second registration on `c1Handler` targeting `get` with a fresh
`operation_id`. -/
def c1Args : SASArgs := { baseArgs with method := some "get", operation_id := PyVal.str "second" }

/-- The handler state after the second registration of `c1Args` on
`c1Handler`: the plain record was merged with a per-method entry. -/
def c1ResultHandler : Handler :=
  ⟨"my_action", ["get"], [], Option.none,
    some [("operation_id", PyVal.str "first"),
          ("get", PyVal.dict [(PyVal.str "operation_id", PyVal.str "second")])]⟩

/-- An `@api_view` style handler exposing only `get`, with a per-method
override record already stored for `get`. -/
def c1wHandler : Handler :=
  ⟨"h", [], [], some ⟨["get"], ["get"], []⟩, some [("get", PyVal.dict [])]⟩

/-- A registration call targeting `get` with an override. -/
def c1wArgs : SASArgs := { baseArgs with method := some "get", operation_id := PyVal.str "x" }

/-- An `@api_view` style handler exposing only `get`, with no stored
override record. -/
def c2Handler : Handler := ⟨"h", [], [], some ⟨["get"], ["get"], []⟩, Option.none⟩

/-- A call supplying the unavailable method `post` with an empty override
spec. -/
def c2Args : SASArgs := { baseArgs with method := some "post" }

/-- A call supplying the unavailable method `post` with a non-empty
override spec. -/
def c2wArgs : SASArgs := { baseArgs with method := some "post", operation_id := PyVal.str "x" }

/-- A call whose extra overrides use the reserved key `get`. -/
def c3wArgs : SASArgs :=
  { baseArgs with operation_id := PyVal.str "x", extra_overrides := [("get", PyVal.str "y")] }

/-- The parameters `(name="id", in="query")` and `(name="id", in="path")`. -/
def c5ParamA : Parameter := ⟨"id", "query", 0⟩

/-- See `c5ParamA`. -/
def c5ParamB : Parameter := ⟨"id", "path", 1⟩

/-- A serializer class named `UserSerializer`. -/
def userSerializer : Serializer := ⟨Option.none, "UserSerializer", false⟩

/-- A model-derived serializer class named `NestedSerializer`. -/
def nestedSerializer : Serializer := ⟨Option.none, "NestedSerializer", true⟩

/-- A serializer class named exactly `Serializer`. -/
def bareSerializer : Serializer := ⟨Option.none, "Serializer", false⟩

/-- A mapping with string keys and no `None` entries. -/
def c8Sample : PyVal :=
  PyVal.dict [(PyVal.str "a", PyVal.int 1), (PyVal.str "b", PyVal.bool true)]

/-- Parser classes whose media types are all form-encoded. -/
def c9FormParsers : List ParserClass :=
  [⟨"application/x-www-form-urlencoded"⟩, ⟨"multipart/form-data"⟩]

/-- Parser classes mixing a body media type with a form media type. -/
def c9MixedParsers : List ParserClass :=
  [⟨"application/json"⟩, ⟨"multipart/form-data"⟩]

/- Helper lemmas about the list machinery. -/

theorem filter_idem {α : Type} (p : α → Bool) (l : List α) :
    (l.filter p).filter p = l.filter p :=
  List.filter_eq_self.mpr fun a ha => List.of_mem_filter ha

theorem filterKeep {α : Type} (p : α → Bool) (xs : List α) :
    (if (xs.filter p).length ≠ xs.length then xs.filter p else xs) = xs.filter p := by
  split
  · rfl
  · next h => exact ((List.filter_sublist xs).eq_of_length (by omega)).symm

theorem filter_none_dict (xs : List (PyVal × PyVal)) :
    filter_none (PyVal.dict xs) =
      PyVal.dict (xs.filter fun kv => !(isNone kv.1) && !(isNone kv.2)) := by
  simp only [filter_none]
  split
  · rfl
  · next h => exact congrArg PyVal.dict ((List.filter_sublist xs).eq_of_length (by omega)).symm

theorem filter_none_list (xs : List PyVal) :
    filter_none (PyVal.list xs) = PyVal.list (xs.filter fun v => !(isNone v)) := by
  simp only [filter_none]
  split
  · rfl
  · next h => exact congrArg PyVal.list ((List.filter_sublist xs).eq_of_length (by omega)).symm

theorem filter_none_tuple (xs : List PyVal) :
    filter_none (PyVal.tuple xs) = PyVal.tuple (xs.filter fun v => !(isNone v)) := by
  simp only [filter_none]
  split
  · rfl
  · next h => exact congrArg PyVal.tuple ((List.filter_sublist xs).eq_of_length (by omega)).symm

/-- Claim C8: `filter_none` is idempotent, and on any mapping or sequence
containing no `None` entries (nor, for mappings, `None` keys) the result
has the same length as the input. -/
theorem spec_c8_filter_none_idempotent (x : PyVal) :
    filter_none (filter_none x) = filter_none x ∧
    (noNoneEntries x = true → pyLen (filter_none x) = pyLen x) := by
  constructor
  · cases x
    case dict xs => rw [filter_none_dict, filter_none_dict, filter_idem]
    case list xs => rw [filter_none_list, filter_none_list, filter_idem]
    case tuple xs => rw [filter_none_tuple, filter_none_tuple, filter_idem]
    all_goals rfl
  · intro hn
    cases x
    case dict xs =>
      simp only [noNoneEntries, List.all_eq_true] at hn
      rw [filter_none_dict, List.filter_eq_self.mpr hn]
    case list xs =>
      simp only [noNoneEntries, List.all_eq_true] at hn
      rw [filter_none_list, List.filter_eq_self.mpr hn]
    case tuple xs =>
      simp only [noNoneEntries, List.all_eq_true] at hn
      rw [filter_none_tuple, List.filter_eq_self.mpr hn]
    all_goals rfl

/-- Witness for C8: a concrete mapping with no `None` entries keeps its
length. -/
theorem spec_c8_witness : pyLen (filter_none c8Sample) = pyLen c8Sample :=
  (spec_c8_filter_none_idempotent c8Sample).2 rfl

/-- Claim C9: `get_consumes` returns the collected media types unchanged
when all are form-encoded, and otherwise exactly the non-form-encoded
media types, in order. -/
theorem spec_c9_get_consumes (parser_classes : List ParserClass) :
    (((parser_classes.map fun parser => parser.media_type).all fun encoding =>
        is_form_media_type encoding) = true →
      get_consumes (some parser_classes) =
        parser_classes.map fun parser => parser.media_type) ∧
    (((parser_classes.map fun parser => parser.media_type).all fun encoding =>
        is_form_media_type encoding) = false →
      get_consumes (some parser_classes) =
        (parser_classes.map fun parser => parser.media_type).filter
          fun encoding => !(is_form_media_type encoding)) := by
  constructor <;> intro h <;> simp [get_consumes, h]

/-- Witness for C9 at the two example parser lists from the spec. -/
theorem spec_c9_witness :
    get_consumes (some c9FormParsers) =
      ["application/x-www-form-urlencoded", "multipart/form-data"] ∧
    get_consumes (some c9MixedParsers) = ["application/json"] :=
  ⟨(spec_c9_get_consumes c9FormParsers).1 (by decide),
   (spec_c9_get_consumes c9MixedParsers).2 (by decide)⟩

/-- Claim C10: the result of `is_list_view` does not depend on its HTTP
method argument; the source rebinds `method` before any use of the
parameter. -/
theorem spec_c10_method_independent (path m1 m2 : String) (view : View) :
    is_list_view path m1 view = is_list_view path m2 view := rfl

/-- Claim C6: precedence of `get_serializer_ref_name`: an explicit
`Meta.ref_name` wins outright; else a model-derived serializer named
exactly `NestedSerializer` maps to the inline marker; else the class name
with a trailing `Serializer` suffix stripped when present. -/
theorem spec_c6_ref_name_precedence (s : Serializer) :
    (∀ v, s.metaRefName = some v → get_serializer_ref_name s = v) ∧
    (s.metaRefName = Option.none → s.className = "NestedSerializer" →
      s.isModelSerializer = true → get_serializer_ref_name s = Option.none) ∧
    (s.metaRefName = Option.none →
      ¬(s.className = "NestedSerializer" ∧ s.isModelSerializer = true) →
      get_serializer_ref_name s =
        some (if strEndsWith s.className "Serializer" then
                strDropRight s.className ("Serializer".length)
              else s.className)) := by
  refine ⟨?_, ?_, ?_⟩
  · intro v hv
    simp [get_serializer_ref_name, hv]
  · intro h1 h2 h3
    simp [get_serializer_ref_name, h1, h2, h3]
  · intro h1 h2
    simp only [get_serializer_ref_name, h1]
    split
    · next hc => exact absurd (by simpa using hc) h2
    · rfl

/-- Witness for C6: `UserSerializer` yields `User`; a model-derived
`NestedSerializer` yields the inline marker. -/
theorem spec_c6_witness :
    get_serializer_ref_name userSerializer = some "User" ∧
    get_serializer_ref_name nestedSerializer = Option.none :=
  ⟨((spec_c6_ref_name_precedence userSerializer).2.2 rfl (by decide)).trans (by decide),
   (spec_c6_ref_name_precedence nestedSerializer).2.1 rfl rfl rfl⟩

/-- Claim C7 fails on the code: a serializer class named exactly
`Serializer` with no `Meta.ref_name` yields the empty string, which is
neither a non-empty string nor the inline marker. -/
theorem spec_c7_counterexample : get_serializer_ref_name bareSerializer = some "" := by
  decide

/-- Claim C7 amended: for every serializer without an explicit
`Meta.ref_name` override whose class name is neither empty nor exactly
`Serializer`, the computed reference name is either the inline marker or
a non-empty string. -/
theorem spec_c7_amended (s : Serializer)
    (h1 : s.metaRefName = Option.none)
    (h2 : s.className ≠ "")
    (h3 : s.className ≠ "Serializer") :
    get_serializer_ref_name s = Option.none ∨
      ∃ r, get_serializer_ref_name s = some r ∧ r ≠ "" := by
  simp only [get_serializer_ref_name, h1]
  split
  · exact Or.inl rfl
  · right
    refine ⟨_, rfl, ?_⟩
    split
    · next hsuf =>
      have hs : "Serializer".data <:+ s.className.data := of_decide_eq_true hsuf
      obtain ⟨t, ht⟩ := hs
      intro he
      apply h3
      have hdata : strDropRight s.className ("Serializer".length) = String.mk t := by
        simp only [strDropRight, ← ht, List.length_append]
        rw [show ("Serializer".length : Nat) = "Serializer".data.length from rfl,
          Nat.add_sub_cancel, List.take_left]
      have hmk : String.mk t = "" := hdata.symm.trans he
      have ht0 : t = [] := congrArg String.data hmk
      apply String.ext
      rw [← ht, ht0]
      rfl
    · intro he
      exact h2 he

/-- Witness for C7 amended, at `UserSerializer`. -/
theorem spec_c7_witness :
    get_serializer_ref_name userSerializer = Option.none ∨
      ∃ r, get_serializer_ref_name userSerializer = some r ∧ r ≠ "" :=
  spec_c7_amended userSerializer rfl (by decide) (by decide)

theorem odictSet_any_of_mem {α β : Type} [DecidableEq α] {d : List (α × β)} {k : α}
    (hk : k ∈ d.map Prod.fst) : (d.any fun kv => kv.1 == k) = true := by
  rw [List.any_eq_true]
  rcases List.mem_map.mp hk with ⟨kv, hkv, hfst⟩
  exact ⟨kv, hkv, by simp [hfst]⟩

theorem odictSet_any_of_not_mem {α β : Type} [DecidableEq α] {d : List (α × β)} {k : α}
    (hk : k ∉ d.map Prod.fst) : (d.any fun kv => kv.1 == k) = false := by
  rw [List.any_eq_false]
  intro kv hkv
  simp only [beq_iff_eq]
  exact fun he => hk (List.mem_map.mpr ⟨kv, hkv, he⟩)

theorem odictSet_keys_of_mem {α β : Type} [DecidableEq α] {d : List (α × β)} {k : α}
    (v : β) (hk : k ∈ d.map Prod.fst) :
    (odictSet d k v).map Prod.fst = d.map Prod.fst := by
  simp only [odictSet, odictSet_any_of_mem hk, if_true]
  rw [List.map_map]
  apply List.map_congr_left
  intro kv hkv
  by_cases h : kv.1 = k
  · simp [Function.comp, h]
  · simp [Function.comp, h]

theorem odictSet_length_of_mem {α β : Type} [DecidableEq α] {d : List (α × β)} {k : α}
    (v : β) (hk : k ∈ d.map Prod.fst) :
    (odictSet d k v).length = d.length := by
  have h1 := congrArg List.length (odictSet_keys_of_mem v hk)
  simpa using h1

theorem odictSet_of_not_mem {α β : Type} [DecidableEq α] {d : List (α × β)} {k : α}
    (v : β) (hk : k ∉ d.map Prod.fst) :
    odictSet d k v = d ++ [(k, v)] := by
  simp [odictSet, odictSet_any_of_not_mem hk]

theorem odictUpdate_cons {α β : Type} [DecidableEq α] (d : List (α × β)) (kv : α × β)
    (pairs : List (α × β)) :
    odictUpdate d (kv :: pairs) = odictUpdate (odictSet d kv.1 kv.2) pairs := rfl

theorem odictUpdate_length_le {α β : Type} [DecidableEq α]
    (pairs : List (α × β)) (d : List (α × β)) :
    (odictUpdate d pairs).length ≤ d.length + pairs.length := by
  induction pairs generalizing d with
  | nil => simp [odictUpdate]
  | cons kv ps ih =>
    rw [odictUpdate_cons]
    by_cases hk : kv.1 ∈ d.map Prod.fst
    · have hrec := ih (odictSet d kv.1 kv.2)
      rw [odictSet_length_of_mem kv.2 hk] at hrec
      simp only [List.length_cons]
      omega
    · rw [odictSet_of_not_mem kv.2 hk]
      have hrec := ih (d ++ [(kv.1, kv.2)])
      simp only [List.length_append, List.length_cons, List.length_nil] at hrec ⊢
      omega

theorem odictUpdate_length_eq_iff {α β : Type} [DecidableEq α]
    (pairs : List (α × β)) (d : List (α × β)) :
    (odictUpdate d pairs).length = d.length + pairs.length ↔
      ((pairs.map Prod.fst).Nodup ∧ ∀ k ∈ pairs.map Prod.fst, k ∉ d.map Prod.fst) := by
  induction pairs generalizing d with
  | nil => simp [odictUpdate]
  | cons kv ps ih =>
    rw [odictUpdate_cons]
    by_cases hk : kv.1 ∈ d.map Prod.fst
    · have hle := odictUpdate_length_le ps (odictSet d kv.1 kv.2)
      rw [odictSet_length_of_mem kv.2 hk] at hle
      constructor
      · intro h
        simp only [List.length_cons] at h
        omega
      · rintro ⟨-, hall⟩
        exact absurd hk (hall kv.1 (by simp))
    · rw [odictSet_of_not_mem kv.2 hk]
      have hlen : (d ++ [(kv.1, kv.2)]).length + ps.length = d.length + (kv :: ps).length := by
        simp only [List.length_append, List.length_cons, List.length_nil]
        omega
      rw [← hlen, ih (d ++ [(kv.1, kv.2)])]
      constructor
      · rintro ⟨hnd, hall⟩
        have hallx : ∀ k ∈ ps.map Prod.fst, k ∉ d.map Prod.fst ∧ k ≠ kv.1 := by
          intro k hkm
          have hx := hall k hkm
          simp only [List.map_append, List.map_cons, List.map_nil, List.mem_append,
            List.mem_cons, List.not_mem_nil, or_false, not_or] at hx
          exact hx
        constructor
        · simp only [List.map_cons]
          exact List.nodup_cons.mpr ⟨fun hmem => (hallx kv.1 hmem).2 rfl, hnd⟩
        · simp only [List.map_cons]
          intro k hkm
          rcases List.mem_cons.mp hkm with rfl | hkm2
          · exact hk
          · exact (hallx k hkm2).1
      · rintro ⟨hnd, hall⟩
        simp only [List.map_cons, List.nodup_cons] at hnd
        refine ⟨hnd.2, ?_⟩
        intro k hkm
        simp only [List.map_append, List.map_cons, List.map_nil, List.mem_append,
          List.mem_cons, List.not_mem_nil, or_false, not_or]
        refine ⟨hall k (List.mem_cons_of_mem _ hkm), fun he => hnd.1 (he ▸ hkm)⟩

theorem odictUpdate_append_of_fresh {α β : Type} [DecidableEq α]
    (pairs : List (α × β)) (d : List (α × β))
    (hnd : (pairs.map Prod.fst).Nodup)
    (hfresh : ∀ k ∈ pairs.map Prod.fst, k ∉ d.map Prod.fst) :
    odictUpdate d pairs = d ++ pairs := by
  induction pairs generalizing d with
  | nil => simp [odictUpdate]
  | cons kv ps ih =>
    rw [odictUpdate_cons]
    have hndc : (kv.1 :: ps.map Prod.fst).Nodup := by
      simpa only [List.map_cons] using hnd
    have hnd2 := List.nodup_cons.mp hndc
    have hk : kv.1 ∉ d.map Prod.fst := hfresh kv.1 (by simp)
    rw [odictSet_of_not_mem kv.2 hk]
    have hfresh2 : ∀ k ∈ ps.map Prod.fst, k ∉ (d ++ [(kv.1, kv.2)]).map Prod.fst := by
      intro k hkm
      simp only [List.map_append, List.map_cons, List.map_nil, List.mem_append,
        List.mem_cons, List.not_mem_nil, or_false, not_or]
      refine ⟨hfresh k (List.mem_cons_of_mem _ hkm), fun he => hnd2.1 (he ▸ hkm)⟩
    rw [ih (d ++ [(kv.1, kv.2)]) hnd2.2 hfresh2]
    simp

/-- Claim C5: `param_list_to_odict` keys the result by the `(name, in_)`
pair of each parameter in input order, and raises exactly when two input
parameters share a key; in particular equal names with different
locations succeed and equal names with equal locations fail. -/
theorem spec_c5_param_list_to_odict (parameters : List Parameter) :
    ((∃ e, param_list_to_odict parameters = Except.error e) ↔
      ¬ (parameters.map paramKey).Nodup) ∧
    ((parameters.map paramKey).Nodup →
      param_list_to_odict parameters =
        Except.ok (parameters.map fun param => (paramKey param, param))) := by
  have hkeys : ((parameters.map fun param => (paramKey param, param)).map Prod.fst) =
      parameters.map paramKey := by
    rw [List.map_map]
    rfl
  have hlen0 : (parameters.map fun param => (paramKey param, param)).length =
      parameters.length := List.length_map _ _
  have hiff := odictUpdate_length_eq_iff
    (parameters.map fun param => (paramKey param, param)) ([] : List ((String × String) × Parameter))
  simp only [hkeys, List.length_nil, Nat.zero_add, List.map_nil, List.not_mem_nil,
    not_false_iff, implies_true, and_true, hlen0] at hiff
  constructor
  · constructor
    · rintro ⟨e, he⟩ hnd
      simp only [param_list_to_odict] at he
      split at he
      · cases he
      · next hne => exact hne (hiff.mpr hnd)
    · intro hnnd
      simp only [param_list_to_odict, odictOfList]
      split
      · next hle => exact absurd (hiff.mp hle) hnnd
      · exact ⟨_, rfl⟩
  · intro hnd
    have hfresh : ∀ k ∈ (parameters.map fun param => (paramKey param, param)).map Prod.fst,
        k ∉ ([] : List ((String × String) × Parameter)).map Prod.fst := by simp
    have hfold := odictUpdate_append_of_fresh
      (parameters.map fun param => (paramKey param, param)) [] (by rw [hkeys]; exact hnd) hfresh
    simp only [List.nil_append] at hfold
    simp only [param_list_to_odict, odictOfList]
    rw [hfold, if_pos hlen0]

/-- Witness for C5: two parameters sharing a name but not a location
succeed in input order. -/
theorem spec_c5_witness :
    param_list_to_odict [c5ParamA, c5ParamB] =
      Except.ok [(("id", "query"), c5ParamA), (("id", "path"), c5ParamB)] :=
  (spec_c5_param_list_to_odict [c5ParamA, c5ParamB]).2 (by decide)

theorem odictSet_ne_nil {α β : Type} [DecidableEq α] (d : List (α × β)) (k : α) (v : β) :
    odictSet d k v ≠ [] := by
  simp only [odictSet]
  split
  · next hany =>
    rcases List.any_eq_true.mp hany with ⟨kv, hkv, -⟩
    intro hnil
    rw [List.map_eq_nil_iff] at hnil
    simp [hnil] at hkv
  · simp

theorem odictUpdate_ne_nil_left {α β : Type} [DecidableEq α] (pairs d : List (α × β))
    (hd : d ≠ []) : odictUpdate d pairs ≠ [] := by
  induction pairs generalizing d with
  | nil => simpa [odictUpdate] using hd
  | cons kv ps ih =>
    rw [odictUpdate_cons]
    exact ih _ (odictSet_ne_nil d kv.1 kv.2)

theorem odictUpdate_ne_nil {α β : Type} [DecidableEq α] (pairs d : List (α × β))
    (hp : pairs ≠ []) : odictUpdate d pairs ≠ [] := by
  cases pairs with
  | nil => exact absurd rfl hp
  | cons kv ps =>
    rw [odictUpdate_cons]
    exact odictUpdate_ne_nil_left ps _ (odictSet_ne_nil d kv.1 kv.2)

theorem MethodsArg.truthy_list (l : List String) :
    (MethodsArg.list l).truthy = true ↔ l ≠ [] := by
  cases l <;> simp [MethodsArg.truthy]

theorem sel_true_of_mem_suppliedTargets {a : SASArgs} {m : String}
    (hm : m ∈ suppliedTargets a) :
    (a.methods.truthy || methodTruthy a.method) = true := by
  by_contra hno
  simp only [Bool.or_eq_true, not_or, Bool.not_eq_true] at hno
  obtain ⟨h1, h2⟩ := hno
  simp [suppliedTargets, h1, h2] at hm

theorem suppliedTargets_ne_nil {a : SASArgs}
    (hsel : (a.methods.truthy || methodTruthy a.method) = true) :
    suppliedTargets a ≠ [] := by
  by_cases hmt : methodTruthy a.method = true
  · simp [suppliedTargets, hmt]
  · have hmtrue : a.methods.truthy = true := by
      have hor : a.methods.truthy = true ∨ methodTruthy a.method = true := by
        simpa using hsel
      exact hor.resolve_right hmt
    simp only [Bool.not_eq_true] at hmt
    cases hm : a.methods with
    | pynone => rw [hm] at hmtrue; cases hmtrue
    | str s =>
      rw [hm] at hmtrue
      simp [suppliedTargets, hmt, hm, hmtrue]
    | list l =>
      rw [hm] at hmtrue
      have hlne := (MethodsArg.truthy_list l).mp hmtrue
      simp [suppliedTargets, hmt, hm, hmtrue, hlne]

theorem resolveSelector_ok_spec (a : SASArgs) (av : List String) (ex : Data)
    (m : MethodsArg) (hok : resolveSelector a av ex = Except.ok m) :
    ((a.methods.truthy || methodTruthy a.method) = false ∧ m = a.methods ∧
      m.truthy = false) ∨
    ((a.methods.truthy || methodTruthy a.method) = true ∧
      m = MethodsArg.list ((suppliedTargets a).map pyLower) ∧
      suppliedTargets a ≠ [] ∧
      av.isEmpty = false ∧
      (∀ mth ∈ (suppliedTargets a).map pyLower, av.contains mth = true) ∧
      (∀ mth ∈ (suppliedTargets a).map pyLower,
        (ex.any fun kv => kv.1 == mth) = false)) := by
  simp only [resolveSelector] at hok
  by_cases hsel : (a.methods.truthy || methodTruthy a.method) = true
  · rw [if_pos hsel] at hok
    by_cases hempty : av.isEmpty = true
    · rw [if_pos hempty] at hok; cases hok
    rw [if_neg hempty] at hok
    by_cases hboth : (a.methods.truthy == methodTruthy a.method) = true
    · rw [if_pos hboth] at hok; cases hok
    rw [if_neg hboth] at hok
    by_cases hstr : (match a.methods with | MethodsArg.str _ => true | _ => false) = true
    · rw [if_pos hstr] at hok; cases hok
    rw [if_neg hstr] at hok
    have hms : (if methodTruthy a.method = true then [pyLower (a.method.getD "")]
        else a.methods.toList.map pyLower) = (suppliedTargets a).map pyLower := by
      by_cases hmt : methodTruthy a.method = true
      · have hmf : a.methods.truthy = false := by
          by_contra hmm
          simp only [Bool.not_eq_false] at hmm
          simp [hmm, hmt] at hboth
        rw [if_pos hmt]
        simp [suppliedTargets, hmt, hmf]
      · have hmtrue : a.methods.truthy = true := by
          have hor : a.methods.truthy = true ∨ methodTruthy a.method = true := by
            simpa using hsel
          exact hor.resolve_right hmt
        rw [if_neg hmt]
        simp only [Bool.not_eq_true] at hmt
        cases hx : a.methods with
        | pynone => rw [hx] at hmtrue; cases hmtrue
        | str s => rw [hx] at hstr; simp at hstr
        | list l =>
          rw [hx] at hmtrue
          simp [suppliedTargets, hmt, hx, hmtrue, MethodsArg.toList]
    rw [hms] at hok
    by_cases hall : (!(((suppliedTargets a).map pyLower).all fun mth => av.contains mth)) = true
    · rw [if_pos hall] at hok; cases hok
    rw [if_neg hall] at hok
    by_cases hmem : (((suppliedTargets a).map pyLower).any fun mth =>
        ex.any fun kv => kv.1 == mth) = true
    · rw [if_pos hmem] at hok; cases hok
    rw [if_neg hmem] at hok
    injection hok with hok2
    right
    refine ⟨hsel, hok2.symm, suppliedTargets_ne_nil hsel, ?_, ?_, ?_⟩
    · simp only [Bool.not_eq_true] at hempty
      exact hempty
    · simp only [Bool.not_eq_true, Bool.not_eq_false'] at hall
      exact fun mth hmth => List.all_eq_true.mp hall mth hmth
    · simp only [Bool.not_eq_true] at hmem
      intro mth hmth
      have hx := List.any_eq_false.mp hmem mth hmth
      simp only [Bool.not_eq_true] at hx
      exact hx
  · rw [if_neg hsel] at hok
    injection hok with hok2
    left
    have hsel2 : a.methods.truthy = false ∧ methodTruthy a.method = false := by
      constructor <;> [skip; skip] <;> by_contra hc <;>
        simp only [Bool.not_eq_false] at hc <;> simp [hc] at hsel
    exact ⟨by simp [hsel2.1, hsel2.2], hok2.symm, by rw [← hok2]; exact hsel2.1⟩

theorem defaultSingleMethod_spec (ms1 : MethodsArg) (av : List String)
    (m : MethodsArg) (hok : defaultSingleMethod ms1 av = Except.ok m) :
    (1 < av.length ∧ ms1.truthy = true ∧ m = ms1) ∨
    (av.length ≤ 1 ∧
      ((ms1.truthy = true ∧ m = ms1) ∨
       (ms1.truthy = false ∧ m = MethodsArg.list av))) := by
  simp only [defaultSingleMethod] at hok
  split at hok
  · next hlen =>
    split at hok
    · cases hok
    · next htr =>
      injection hok with hok2
      left
      exact ⟨hlen, by simpa using htr, hok2.symm⟩
  · next hlen =>
    right
    refine ⟨by omega, ?_⟩
    injection hok with hok2
    by_cases htr : ms1.truthy = true
    · left
      rw [if_pos htr] at hok2
      exact ⟨htr, hok2.symm⟩
    · right
      rw [if_neg htr] at hok2
      exact ⟨by simpa using htr, hok2.symm⟩

theorem swagger_run_cases (a : SASArgs) (h : Handler) :
    (∃ msg, swagger_auto_schema a h = RegResult.err msg h) ∨
    ((mergedData a).isEmpty = true ∧ swagger_auto_schema a h = RegResult.retNone h) ∨
    (∃ d, d ≠ [] ∧
      swagger_auto_schema a h = RegResult.ok { h with swagger_auto_schema := some d } ∧
      ((availableHttpMethods h = [] ∧
        (a.methods.truthy || methodTruthy a.method) = false ∧
        h.swagger_auto_schema.getD [] = [] ∧ d = mergedData a) ∨
       (availableHttpMethods h ≠ [] ∧
        ((a.methods.truthy || methodTruthy a.method) = true ∨
          (availableHttpMethods h).length ≤ 1) ∧
        (∀ mth ∈ resolvedTargets a h, (availableHttpMethods h).contains mth = true) ∧
        (∀ mth ∈ resolvedTargets a h,
          ((h.swagger_auto_schema.getD []).any fun kv => kv.1 == mth) = false)))) := by
  simp only [swagger_auto_schema]
  rw [show apiViewHttpMethods h.cls ++ actionHttpMethods h = availableHttpMethods h from rfl]
  by_cases hc0 : (APIView_http_method_names.any fun hm =>
      a.extra_overrides.any fun kv => kv.1 == hm) = true
  · rw [if_pos hc0]
    exact Or.inl ⟨_, rfl⟩
  rw [if_neg hc0]
  by_cases hde : (mergedData a).isEmpty = true
  · rw [if_pos hde]
    exact Or.inr (Or.inl ⟨hde, rfl⟩)
  rw [if_neg hde]
  have hdnn : mergedData a ≠ [] := fun hnil => hde (by simp [hnil])
  cases hrs : resolveSelector a (availableHttpMethods h) (h.swagger_auto_schema.getD []) with
  | error e =>
    exact Or.inl ⟨e, rfl⟩
  | ok ms1 =>
    dsimp only
    by_cases hav : (availableHttpMethods h).isEmpty = true
    · rw [if_neg (by simp [hav])]
      by_cases htr : ms1.truthy = true
      · rw [if_pos htr]
        exact Or.inl ⟨_, rfl⟩
      rw [if_neg htr]
      by_cases hex : ((h.swagger_auto_schema.getD []).isEmpty) = true
      · rw [if_neg (by simp [hex])]
        refine Or.inr (Or.inr ⟨mergedData a, hdnn, rfl,
          Or.inl ⟨List.isEmpty_iff.mp hav, ?_, List.isEmpty_iff.mp hex, rfl⟩⟩)
        rcases resolveSelector_ok_spec a _ _ ms1 hrs with ⟨hf, -, -⟩ | ⟨-, hlist, hne, -, -, -⟩
        · exact hf
        · exfalso
          apply htr
          rw [hlist, MethodsArg.truthy_list]
          intro hnil
          exact hne (List.map_eq_nil_iff.mp hnil)
      · have hex2 : (h.swagger_auto_schema.getD []).isEmpty = false := by simpa using hex
        rw [if_pos (by simp [hex2])]
        exact Or.inl ⟨_, rfl⟩
    · have hav2 : (availableHttpMethods h).isEmpty = false := by simpa using hav
      rw [if_pos (by simp [hav2])]
      have havne : availableHttpMethods h ≠ [] := by
        intro hnil
        rw [hnil] at hav2
        cases hav2
      by_cases hbo : ((!(apiViewHttpMethods h.cls).isEmpty) ==
          (!(actionHttpMethods h).isEmpty)) = true
      · rw [if_pos hbo]
        exact Or.inl ⟨_, rfl⟩
      rw [if_neg hbo]
      cases hds : defaultSingleMethod ms1 (availableHttpMethods h) with
      | error e =>
        exact Or.inl ⟨e, rfl⟩
      | ok ms2 =>
        dsimp only
        have hshape : ms2.toList = resolvedTargets a h ∧ ms2.toList ≠ [] ∧
            ((a.methods.truthy || methodTruthy a.method) = true ∨
              (availableHttpMethods h).length ≤ 1) ∧
            (∀ mth ∈ resolvedTargets a h,
              (availableHttpMethods h).contains mth = true) := by
          rcases resolveSelector_ok_spec a _ _ ms1 hrs with
            ⟨hsf, hm1, htr1⟩ | ⟨hst, hm1, hne, -, hcont, -⟩
          · rcases defaultSingleMethod_spec ms1 _ ms2 hds with ⟨-, htt, -⟩ | ⟨hlen, hcase⟩
            · rw [htr1] at htt; cases htt
            · rcases hcase with ⟨htt, -⟩ | ⟨-, hm2⟩
              · rw [htr1] at htt; cases htt
              · have hres : resolvedTargets a h = availableHttpMethods h := by
                  simp [resolvedTargets, hsf]
                refine ⟨?_, ?_, Or.inr hlen, ?_⟩
                · rw [hm2, hres]
                  rfl
                · rw [hm2]
                  simpa [MethodsArg.toList] using havne
                · intro mth hmth
                  rw [hres] at hmth
                  exact List.elem_iff.mpr hmth
          · have hnel : (suppliedTargets a).map pyLower ≠ [] := by
              intro hnil
              exact hne (List.map_eq_nil_iff.mp hnil)
            have htr1 : ms1.truthy = true := by
              rw [hm1, MethodsArg.truthy_list]
              exact hnel
            have hm2 : ms2 = ms1 := by
              rcases defaultSingleMethod_spec ms1 _ ms2 hds with ⟨-, -, hm2⟩ | ⟨-, hcase⟩
              · exact hm2
              · rcases hcase with ⟨-, hm2⟩ | ⟨htf, -⟩
                · exact hm2
                · rw [htr1] at htf; cases htf
            have hres : resolvedTargets a h = (suppliedTargets a).map pyLower := by
              simp [resolvedTargets, hst]
            refine ⟨?_, ?_, Or.inl hst, ?_⟩
            · rw [hm2, hm1, hres]
              rfl
            · rw [hm2, hm1]
              simpa [MethodsArg.toList] using hnel
            · intro mth hmth
              rw [hres] at hmth
              exact hcont mth hmth
        obtain ⟨htl, htlne, hselcase, hcontains⟩ := hshape
        by_cases hcs : (ms2.toList.any fun mth => clsAttrHasSchema h.cls mth) = true
        · rw [if_pos hcs]
          exact Or.inl ⟨_, rfl⟩
        rw [if_neg hcs]
        by_cases hmm : (ms2.toList.any fun mth =>
            (h.swagger_auto_schema.getD []).any fun kv => kv.1 == mth) = true
        · rw [if_pos hmm]
          exact Or.inl ⟨_, rfl⟩
        rw [if_neg hmm]
        refine Or.inr (Or.inr ⟨_, ?_, rfl, Or.inr ⟨havne, hselcase, hcontains, ?_⟩⟩)
        · apply odictUpdate_ne_nil
          intro hnil
          exact htlne (List.map_eq_nil_iff.mp hnil)
        · simp only [Bool.not_eq_true] at hmm
          intro mth hmth
          rw [← htl] at hmth
          have hx := List.any_eq_false.mp hmm mth hmth
          simp only [Bool.not_eq_true] at hx
          exact hx

/-- Claim C3: the registration operation is atomic.  A successful call
stores a non-empty override record on the handler; a failed call raises
with the handler exactly as it was before (every `assert` precedes the
writes on lines 164-165 and 172), and the empty-spec early return also
leaves the handler untouched — no partially written record is observable
after a failed registration. -/
theorem spec_c3_atomic (a : SASArgs) (h : Handler) :
    (∀ h2, swagger_auto_schema a h = RegResult.ok h2 →
      ∃ d, h2.swagger_auto_schema = some d ∧ d ≠ []) ∧
    (∀ msg h2, swagger_auto_schema a h = RegResult.err msg h2 → h2 = h) ∧
    (∀ h2, swagger_auto_schema a h = RegResult.retNone h2 → h2 = h) := by
  rcases swagger_run_cases a h with ⟨msg, he⟩ | ⟨-, he⟩ | ⟨d, hdne, he, -⟩
  · refine ⟨?_, ?_, ?_⟩
    · intro h2 heq
      rw [he] at heq
      cases heq
    · intro msg2 h2 heq
      rw [he] at heq
      injection heq with h1 h2eq
      exact h2eq.symm
    · intro h2 heq
      rw [he] at heq
      cases heq
  · refine ⟨?_, ?_, ?_⟩
    · intro h2 heq
      rw [he] at heq
      cases heq
    · intro msg2 h2 heq
      rw [he] at heq
      cases heq
    · intro h2 heq
      rw [he] at heq
      injection heq with h2eq
      exact h2eq.symm
  · refine ⟨?_, ?_, ?_⟩
    · intro h2 heq
      rw [he] at heq
      injection heq with h2eq
      exact ⟨d, by rw [← h2eq], hdne⟩
    · intro msg2 h2 heq
      rw [he] at heq
      cases heq
    · intro h2 heq
      rw [he] at heq
      cases heq

/-- Witness for C3: a call whose extra overrides use the reserved key
`get` fails, and the handler state reported at the raise equals the
input handler. -/
theorem spec_c3_witness : plainHandler = plainHandler :=
  (spec_c3_atomic c3wArgs plainHandler).2.1 "HTTP method names not allowed here"
    plainHandler rfl

/-- Claim C4 marks a code bug: with an empty merged override spec the
decorator body reaches the bare `return` on line 121, so the decorator
returns `None` instead of the view method.  Nothing is written onto the
handler, but the decorated method is replaced by `None` rather than
returned unchanged, contradicting the decorator contract stated in the
docstring of `swagger_auto_schema`. -/
theorem spec_c4_bug :
    mergedData baseArgs = [] ∧
    swagger_auto_schema baseArgs plainHandler = RegResult.retNone plainHandler :=
  ⟨rfl, rfl⟩

/-- Claim C1 as stated fails on the code: `c1Handler` already carries a
plain whole-handler override record, yet a second registration with a
non-empty spec targeting the same handler and the bound method `get`
through the `method` selector succeeds, merging a per-method entry next
to the plain record instead of failing fatally. -/
theorem spec_c1_counterexample :
    c1Handler.swagger_auto_schema = some [("operation_id", PyVal.str "first")] ∧
    (mergedData c1Args).isEmpty = false ∧
    resolvedTargets c1Args c1Handler = ["get"] ∧
    swagger_auto_schema c1Args c1Handler = RegResult.ok c1ResultHandler :=
  ⟨rfl, rfl, rfl, rfl⟩

/-- Claim C1 amended: a registration call with a non-empty merged spec
fails fatally whenever the handler already stores a per-method override
record under a method name the call resolves to target, and likewise
whenever the handler has no available methods (whole-handler targeting)
and already stores any override record. -/
theorem spec_c1_amended (a : SASArgs) (h : Handler) (d : Data) (m : String)
    (hreg : h.swagger_auto_schema = some d)
    (hdata : (mergedData a).isEmpty = false)
    (hcase : (m ∈ d.map Prod.fst ∧ m ∈ resolvedTargets a h) ∨
      (availableHttpMethods h = [] ∧ d ≠ [])) :
    ∃ msg, swagger_auto_schema a h = RegResult.err msg h := by
  rcases swagger_run_cases a h with he | ⟨hemp, -⟩ | ⟨d2, hd2ne, -, hrec⟩
  · exact he
  · rw [hdata] at hemp
    cases hemp
  · exfalso
    rcases hrec with ⟨hav0, hsel, hex0, -⟩ | ⟨havne, -, -, hnomem⟩
    · rw [hreg] at hex0
      rw [show (some d).getD ([] : Data) = d from rfl] at hex0
      rcases hcase with ⟨hmk, -⟩ | ⟨-, hdne⟩
      · rw [hex0] at hmk
        simp at hmk
      · exact hdne hex0
    · rcases hcase with ⟨hmk, hmt⟩ | ⟨hav0, -⟩
      · have hx := hnomem m hmt
        rw [hreg] at hx
        rw [show (some d).getD ([] : Data) = d from rfl] at hx
        rw [odictSet_any_of_mem hmk] at hx
        cases hx
      · exact havne hav0

/-- Witness for C1 amended: a second registration targeting `get` on a
handler that already stores a per-method record for `get` fails. -/
theorem spec_c1_witness :
    ∃ msg, swagger_auto_schema c1wArgs c1wHandler = RegResult.err msg c1wHandler :=
  spec_c1_amended c1wArgs c1wHandler [("get", PyVal.dict [])] "get" rfl rfl
    (Or.inl ⟨by decide, by decide⟩)

/-- Claim C2 fails as stated on the code: with an empty override spec,
supplying the unavailable method `post` does not fail fatally — the
decorator takes the empty-spec early return (returning `None`) without
raising. -/
theorem spec_c2_counterexample :
    suppliedTargets c2Args = ["post"] ∧
    (availableHttpMethods c2Handler).contains (pyLower "post") = false ∧
    swagger_auto_schema c2Args c2Handler = RegResult.retNone c2Handler :=
  ⟨rfl, rfl, rfl⟩

/-- Claim C2 amended: for a call with a non-empty merged override spec,
registration on a handler with more than one available method fails when
neither `method` nor `methods` is supplied; and supplying any target
method whose lower-cased normalization is not among the available
methods fails. -/
theorem spec_c2_amended (a : SASArgs) (h : Handler)
    (hdata : (mergedData a).isEmpty = false) :
    ((a.methods.truthy = false ∧ methodTruthy a.method = false) →
      1 < (availableHttpMethods h).length →
      ∃ msg, swagger_auto_schema a h = RegResult.err msg h) ∧
    (∀ m, m ∈ suppliedTargets a →
      (availableHttpMethods h).contains (pyLower m) = false →
      ∃ msg, swagger_auto_schema a h = RegResult.err msg h) := by
  constructor
  · rintro ⟨hm1, hm2⟩ hlen
    rcases swagger_run_cases a h with he | ⟨hemp, -⟩ | ⟨d2, -, -, hrec⟩
    · exact he
    · rw [hdata] at hemp
      cases hemp
    · exfalso
      rcases hrec with ⟨hav0, -, -, -⟩ | ⟨-, hselcase, -, -⟩
      · rw [hav0] at hlen
        simp at hlen
      · rcases hselcase with hsel | hle
        · rw [hm1, hm2] at hsel
          simp at hsel
        · omega
  · intro m hm hcont
    rcases swagger_run_cases a h with he | ⟨hemp, -⟩ | ⟨d2, -, -, hrec⟩
    · exact he
    · rw [hdata] at hemp
      cases hemp
    · exfalso
      have hsel := sel_true_of_mem_suppliedTargets hm
      rcases hrec with ⟨-, hself, -, -⟩ | ⟨-, -, hcontains, -⟩
      · rw [hsel] at hself
        cases hself
      · have hres : resolvedTargets a h = (suppliedTargets a).map pyLower := by
          simp [resolvedTargets, hsel]
        have hmem : pyLower m ∈ resolvedTargets a h := by
          rw [hres]
          exact List.mem_map.mpr ⟨m, hm, rfl⟩
        have hx := hcontains (pyLower m) hmem
        rw [hcont] at hx
        cases hx

/-- Witness for C2 amended: supplying `post` on a get-only handler with a
non-empty spec fails. -/
theorem spec_c2_witness :
    ∃ msg, swagger_auto_schema c2wArgs c2Handler = RegResult.err msg c2Handler :=
  (spec_c2_amended c2wArgs c2Handler rfl).2 "post" (by decide) rfl
